import Mathlib

/-!
Verification of the routing and narration core of the Voice-Based College
Navigation System (`VoiceBasedCollegeNavigation.py`).

The Python module keeps the campus graph in a global dict `college_map`
(location key → list of neighbor keys) together with a parallel dict
`coordinates` (location key → 2-D point, used only for rendering).
`find_path` is a breadth-first search over whole paths, `calculate_distance`
turns a path into a distance estimate, and `navigate` validates a request,
runs the search, and assembles the message / map / narration triple that the
UI displays.

The embedding below translates those functions directly.  The global dict is
passed explicitly (`Graph`); the Python `while queue:` loop becomes the
fuel-indexed `bfsLoop`, and `fuelBound` supplies enough fuel — the theorem
`find_path_terminates` proves the fuel is never exhausted, so the fueled
function agrees with the unbounded Python loop.  Voice output (`speak_async`)
is a fire-and-forget side effect with no influence on the returned values and
is not modelled; the matplotlib artifact returned by
`generate_map_matplotlib path` is modelled as the path handed to the
renderer.
-/

/-- A Python dict `location key → neighbor keys`, in insertion order. -/
abbrev Graph := List (String × List String)

/-- `college_map` (source lines 23–32). -/
def college_map : Graph :=
  [ ("Gate 1", ["Cafeteria", "Gate 2"]),
    ("Gate 2", ["Gate 1", "CSE Block", "Boys Hostel"]),
    ("Cafeteria", ["Gate 1", "BTech Block"]),
    ("BTech Block", ["Cafeteria", "Santosh Library", "Ravi Canteen"]),
    ("Santosh Library", ["BTech Block"]),
    ("Ravi Canteen", ["BTech Block", "Boys Hostel"]),
    ("Boys Hostel", ["Ravi Canteen", "Gate 2", "CSE Block"]),
    ("CSE Block", ["Gate 2", "Boys Hostel"]) ]

/-- `coordinates` (source lines 35–44).  The values are display-only 2-D
points (floats in the source, exact rationals here); the navigation logic
never reads them, only the keys matter for the claims. -/
def coordinates : List (String × ℚ × ℚ) :=
  [ ("Gate 1", 0, 0),
    ("Gate 2", 1.8, 0.4),
    ("Cafeteria", 0.4, 0.3),
    ("BTech Block", 0.7, 0.6),
    ("Santosh Library", 0.9, 0.9),
    ("Ravi Canteen", 1.1, 0.7),
    ("Boys Hostel", 1.5, 1.0),
    ("CSE Block", 2.0, 0.7) ]

/-- Python `key in dict` membership test. -/
def containsKeyG (g : Graph) (k : String) : Bool :=
  g.any (fun kv => kv.1 == k)

/-- The dict keys, in insertion order. -/
def graphKeys (g : Graph) : List String :=
  g.map (fun kv => kv.1)

/-- Python `dict.get(node, [])` (source line 79). -/
def neighborsOfG (g : Graph) (k : String) : List String :=
  ((g.find? (fun kv => kv.1 == k)).map (fun kv => kv.2)).getD []

/-- Number of adjacency entries of `k` (0 when `k` is absent). -/
def degreeOf (g : Graph) (k : String) : Nat :=
  (neighborsOfG g k).length

/-- Outcome of the BFS `while` loop; `outOfFuel` is an artifact of the
fueled embedding and is proved unreachable (`find_path_terminates`). -/
inductive SearchOutcome where
  | found : List String → SearchOutcome
  | notFound : SearchOutcome
  | outOfFuel : SearchOutcome
deriving DecidableEq, Repr

/-- The BFS `while queue:` loop of `find_path` (source lines 70–84).
The deque of whole paths is a list popped at the head and appended at the
tail; `visited` is the visited set, extended only when a node is expanded. -/
def bfsLoop (g : Graph) (endLoc : String) :
    Nat → List String → List (List String) → SearchOutcome
  | 0, _, _ => .outOfFuel
  | _ + 1, _, [] => .notFound
  | fuel + 1, visited, path :: rest =>
      let node := path.getLastD ""
      if node == endLoc then
        .found path
      else if visited.contains node then
        bfsLoop g endLoc fuel visited rest
      else
        bfsLoop g endLoc fuel (node :: visited)
          (rest ++ (neighborsOfG g node).map (fun nb => path ++ [nb]))

/-- Sum of `1 + degree v` over the (deduplicated) keys not yet visited:
an upper bound on the work the loop can still perform. -/
def potential (g : Graph) (visited : List String) : Nat :=
  ((((graphKeys g).dedup).filter (fun v => !visited.contains v)).map
    (fun v => 1 + degreeOf g v)).sum

/-- Fuel that the loop can never exhaust (proved in `find_path_terminates`). -/
def fuelBound (g : Graph) : Nat :=
  2 + potential g []

/-- `find_path` (source lines 59–84), with the three exit forms separated:
the `start == end` short-circuit, the early `None` on an absent key, and the
loop result. -/
def find_path_searchG (g : Graph) (startLoc endLoc : String) : SearchOutcome :=
  if startLoc == endLoc then
    .found [startLoc]
  else if !(containsKeyG g startLoc) || !(containsKeyG g endLoc) then
    .notFound
  else
    bfsLoop g endLoc (fuelBound g) [] [[startLoc]]

/-- `find_path` collapsed to the Python return type (`path` or `None`). -/
def find_pathG (g : Graph) (startLoc endLoc : String) : Option (List String) :=
  match find_path_searchG g startLoc endLoc with
  | .found p => some p
  | _ => none

/-- The source `find_path`, reading the global `college_map`. -/
def find_path (startLoc endLoc : String) : Option (List String) :=
  find_pathG college_map startLoc endLoc

/-- `calculate_distance` (source lines 220–225). -/
def calculate_distance (path : List String) : Nat :=
  if path.length < 2 then 0
  else (path.length - 1) * 100

/-- Adjacency test: `b` occurs in the adjacency list of `a`. -/
def isAdjacentG (g : Graph) (a b : String) : Bool :=
  (neighborsOfG g a).contains b

/-- Consecutive elements are adjacent in `g`. -/
def chainOkG (g : Graph) : List String → Bool
  | [] => true
  | [_] => true
  | a :: b :: rest => isAdjacentG g a b && chainOkG g (b :: rest)

/-- A well-formed path from `s` to `e`: non-empty, starts at `s`, ends at
`e`, consecutive elements adjacent (trivially so for a one-element path). -/
def wellFormedPathG (g : Graph) (s e : String) (p : List String) : Bool :=
  !p.isEmpty && (p.head? == some s) && (p.getLast? == some e) && chainOkG g p

/-- One expansion step: all neighbors of a frontier. -/
def expandG (g : Graph) (frontier : List String) : List String :=
  (frontier.map (fun v => neighborsOfG g v)).flatten

/-- Everything reachable from `s` in at most `n` hops (independent of the
BFS implementation; used as the all-pairs distance oracle). -/
def ball (g : Graph) (s : String) : Nat → List String
  | 0 => [s]
  | n + 1 =>
      let b := ball g s n
      (b ++ expandG g b).dedup

/-- Scan hop counts `k, k+1, …` (at most `steps` of them) for the first
ball containing `e`. -/
def distLoop (g : Graph) (s e : String) : Nat → Nat → Option Nat
  | _, 0 => none
  | k, steps + 1 =>
      if (ball g s k).contains e then some k
      else distLoop g s e (k + 1) steps

/-- Independently computed BFS distance between `s` and `e` (hop count of a
shortest path, `none` when unreachable). -/
def bfsDist (g : Graph) (s e : String) : Option Nat :=
  distLoop g s e 0 (((graphKeys g).dedup).length + 1)

/-- `e` can be reached from `s` by following adjacency. -/
def ReachableG (g : Graph) (s e : String) : Prop :=
  Relation.ReflTransGen (fun a b => b ∈ neighborsOfG g a) s e

/-- The triple returned by `navigate` (source line 227 onward): the markdown
message, the rendered-map artifact (modelled as the path handed to
`generate_map_matplotlib`, `none` when no map is produced), and the voice
instruction text. -/
structure NavResult where
  message : String
  mapFile : Option (List String)
  voiceText : String
deriving DecidableEq, Repr

/-- Source line 232. -/
def missing_location_message : String :=
  "⚠️ Please select both start and destination locations."

/-- Source line 235. -/
def invalid_location_message : String :=
  "❌ Invalid location selected."

/-- Source line 239. -/
def already_at_message (s : String) : String :=
  "✅ You are already at **" ++ s ++ "**!"

/-- Source line 248. -/
def no_path_message (s e : String) : String :=
  "❌ No path found between **" ++ s ++ "** and **" ++ e ++ "**."

/-- Source line 257. -/
def starting_instruction (s : String) : String :=
  "🎯 Starting from **" ++ s ++ "**"

/-- Source line 260 (`i` counts from 1). -/
def step_instruction (i : Nat) (place : String) : String :=
  "Step " ++ toString i ++ ": Proceed to **" ++ place ++ "**"

/-- Source line 265. -/
def destination_instruction (e : String) : String :=
  "🏁 Destination reached: **" ++ e ++ "**"

/-- The `voice_instructions` list built on source lines 254–265: one
starting entry, one step entry per element of `path[1:]` (numbered from 1),
and one destination entry. -/
def voice_instructions (s e : String) (path : List String) : List String :=
  [starting_instruction s]
    ++ (path.drop 1).enum.map (fun ip => step_instruction (ip.1 + 1) ip.2)
    ++ [destination_instruction e]

/-- The inline `distance // 80` of source line 283 (Python floor division on
non-negative ints = truncating Nat division). -/
def est_walking_time (path : List String) : Nat :=
  calculate_distance path / 80

/-- The `result_message` f-string of source lines 274–284. -/
def result_message (path : List String) : String :=
  "\n## ✅ Navigation Successful!\n\n**Route:** "
    ++ String.intercalate " → " path
    ++ "\n\n**Total Steps:** " ++ toString path.length ++ " locations"
    ++ "\n\n**Estimated Distance:** ~" ++ toString (calculate_distance path) ++ " meters"
    ++ "\n\n**Estimated Walking Time:** ~" ++ toString (est_walking_time path) ++ " minutes\n"

/-- Source line 287. -/
def voice_disabled_text : String :=
  "🔇 Voice navigation disabled"

/-- `navigate` (source lines 227–289), over an explicit graph.  Python's
`if not start_location` is the empty-string test; `if not path` is true for
`None` and for an empty list.  `speak_async` calls are side effects that do
not influence the returned triple and are not modelled. -/
def navigateG (g : Graph) (start_location end_location : String)
    (enable_voice : Bool) : NavResult :=
  if start_location == "" || end_location == "" then
    ⟨missing_location_message, none, ""⟩
  else if !(containsKeyG g start_location) || !(containsKeyG g end_location) then
    ⟨invalid_location_message, none, ""⟩
  else if start_location == end_location then
    ⟨already_at_message start_location, none, ""⟩
  else
    match find_pathG g start_location end_location with
    | none => ⟨no_path_message start_location end_location, none, ""⟩
    | some path =>
      if path.isEmpty then
        ⟨no_path_message start_location end_location, none, ""⟩
      else
        let instructions :=
          if enable_voice then
            voice_instructions start_location end_location path
          else []
        ⟨result_message path, some path,
          if instructions.isEmpty then voice_disabled_text
          else String.intercalate "\n" instructions⟩

/-- The source `navigate`, reading the global `college_map`. -/
def navigate (start_location end_location : String) (enable_voice : Bool) :
    NavResult :=
  navigateG college_map start_location end_location enable_voice

/-- No adjacency list mentions a key that is missing from the location dict
or from the coordinate dict. -/
def graph_no_dangling (g : Graph) (coords : List (String × ℚ × ℚ)) : Bool :=
  g.all (fun kv => kv.2.all (fun nb =>
    containsKeyG g nb && coords.any (fun c => c.1 == nb)))

/-- Modelled from the spec: the source builds `college_map` as a dict
literal with no construction-time check, while §4.1 requires construction to
fail with a `MalformedGraphError` whenever an adjacency list references a
key without its own Location entry.  This validator performs exactly that
check at construction. -/
def validate_graph (g : Graph) (coords : List (String × ℚ × ℚ)) :
    Except String Graph :=
  if graph_no_dangling g coords then .ok g
  else .error "MalformedGraphError"

namespace NavLemmas

theorem containsKeyG_iff_mem (g : Graph) (k : String) :
    containsKeyG g k = true ↔ k ∈ graphKeys g := by
  simp only [containsKeyG, graphKeys, List.any_eq_true, List.mem_map,
    beq_iff_eq]

theorem neighborsOfG_eq_nil_of_not_mem (g : Graph) (k : String)
    (h : k ∉ graphKeys g) : neighborsOfG g k = [] := by
  have hfind : g.find? (fun kv => kv.1 == k) = none := by
    rw [List.find?_eq_none]
    intro kv hkv
    simp only [beq_iff_eq]
    intro hk
    exact h (show k ∈ graphKeys g from List.mem_map.mpr ⟨kv, hkv, hk⟩)
  simp [neighborsOfG, hfind]

theorem mem_expandG (g : Graph) (F : List String) (x : String) :
    x ∈ expandG g F ↔ ∃ v ∈ F, x ∈ neighborsOfG g v := by
  simp [expandG]

theorem mem_ball_succ (g : Graph) (s : String) (n : Nat) (x : String) :
    x ∈ ball g s (n + 1) ↔
      x ∈ ball g s n ∨ ∃ v ∈ ball g s n, x ∈ neighborsOfG g v := by
  simp [ball, ← mem_expandG]

theorem ball_mono_succ (g : Graph) (s : String) (n : Nat) (x : String)
    (h : x ∈ ball g s n) : x ∈ ball g s (n + 1) :=
  (mem_ball_succ g s n x).2 (Or.inl h)

theorem ball_sub_of_adj (g : Graph) (s y : String)
    (hy : y ∈ neighborsOfG g s) :
    ∀ k x, x ∈ ball g y k → x ∈ ball g s (k + 1) := by
  intro k
  induction k with
  | zero =>
      intro x hx
      simp only [ball, List.mem_singleton] at hx
      subst hx
      exact (mem_ball_succ g s 0 x).2 (Or.inr ⟨s, by simp [ball], hy⟩)
  | succ k ih =>
      intro x hx
      rcases (mem_ball_succ g y k x).1 hx with h | ⟨v, hv, hxv⟩
      · exact ball_mono_succ g s (k + 1) x (ih x h)
      · exact (mem_ball_succ g s (k + 1) x).2 (Or.inr ⟨v, ih v hv, hxv⟩)

theorem walk_mem_ball (g : Graph) :
    ∀ (p : List String) (s e : String), chainOkG g p = true →
      p.head? = some s → p.getLast? = some e → e ∈ ball g s (p.length - 1) := by
  intro p
  induction p with
  | nil => intro s e _ h; simp at h
  | cons a t ih =>
      intro s e hchain hhead hlast
      simp only [List.head?_cons, Option.some.injEq] at hhead
      subst hhead
      match t, hchain, hlast with
      | [], _, hlast =>
          simp only [List.getLast?_singleton, Option.some.injEq] at hlast
          subst hlast
          simp [ball]
      | b :: t', hchain, hlast =>
          simp only [chainOkG, Bool.and_eq_true] at hchain
          have hadj : b ∈ neighborsOfG g a := by
            have := hchain.1
            simpa [isAdjacentG] using this
          have hlast' : (b :: t').getLast? = some e := by
            simpa [List.getLast?_cons_cons] using hlast
          have := ih b e hchain.2 (by simp) hlast'
          have h2 := ball_sub_of_adj g a b hadj ((b :: t').length - 1) e this
          simpa [List.length_cons] using h2

end NavLemmas

namespace NavLemmas

theorem distLoop_spec (g : Graph) (s e : String) :
    ∀ steps k d, distLoop g s e k steps = some d →
      k ≤ d ∧ e ∈ ball g s d ∧
        ∀ j, k ≤ j → j < d → e ∉ ball g s j := by
  intro steps
  induction steps with
  | zero => intro k d h; simp [distLoop] at h
  | succ steps ih =>
      intro k d h
      by_cases hk : (ball g s k).contains e
      · rw [distLoop, if_pos hk] at h
        cases h
        exact ⟨le_refl k, by simpa using hk, fun j h1 h2 => absurd h1 (by omega)⟩
      · rw [distLoop, if_neg hk] at h
        obtain ⟨h1, h2, h3⟩ := ih (k + 1) d h
        refine ⟨by omega, h2, fun j hj1 hj2 => ?_⟩
        rcases Nat.eq_or_lt_of_le hj1 with rfl | hlt
        · simpa using hk
        · exact h3 j hlt hj2

theorem bfsDist_min (g : Graph) (s e : String) (d : Nat)
    (h : bfsDist g s e = some d) :
    ∀ j, j < d → e ∉ ball g s j := by
  intro j hj
  exact (distLoop_spec g s e _ 0 d h).2.2 j (Nat.zero_le j) hj

theorem chainOkG_append_single (g : Graph) :
    ∀ (p : List String) (a b : String), p.getLast? = some a →
      chainOkG g p = true → isAdjacentG g a b = true →
      chainOkG g (p ++ [b]) = true := by
  intro p
  induction p with
  | nil => intro a b h; simp at h
  | cons x t ih =>
      intro a b hlast hchain hadj
      match t, hlast, hchain with
      | [], hlast, _ =>
          simp only [List.getLast?_singleton, Option.some.injEq] at hlast
          subst hlast
          simp [chainOkG, hadj]
      | y :: t', hlast, hchain =>
          simp only [chainOkG, Bool.and_eq_true] at hchain
          have hlast' : (y :: t').getLast? = some a := by
            simpa [List.getLast?_cons_cons] using hlast
          have := ih a b hlast' hchain.2 hadj
          simpa [chainOkG, hchain.1] using this

theorem chainOkG_reaches (g : Graph) :
    ∀ (p : List String) (a b : String), chainOkG g p = true →
      p.head? = some a → p.getLast? = some b → ReachableG g a b := by
  intro p
  induction p with
  | nil => intro a b _ h; simp at h
  | cons x t ih =>
      intro a b hchain hhead hlast
      simp only [List.head?_cons, Option.some.injEq] at hhead
      subst hhead
      match t, hchain, hlast with
      | [], _, hlast =>
          simp only [List.getLast?_singleton, Option.some.injEq] at hlast
          subst hlast
          exact Relation.ReflTransGen.refl
      | y :: t', hchain, hlast =>
          simp only [chainOkG, Bool.and_eq_true] at hchain
          have hadj : y ∈ neighborsOfG g x := by
            simpa [isAdjacentG] using hchain.1
          have hlast' : (y :: t').getLast? = some b := by
            simpa [List.getLast?_cons_cons] using hlast
          have htail := ih y b hchain.2 (by simp) hlast'
          exact Relation.ReflTransGen.head hadj htail

end NavLemmas

namespace NavLemmas

theorem sum_filter_split (l : List String) (hl : l.Nodup) (x : String)
    (hx : x ∈ l) (p : String → Bool) (hpx : p x = true) (f : String → Nat) :
    ((l.filter p).map f).sum =
      f x + ((l.filter (fun v => p v && !(v == x))).map f).sum := by
  induction l with
  | nil => cases hx
  | cons a t ih =>
      rcases List.nodup_cons.1 hl with ⟨hat, ht⟩
      rcases List.mem_cons.1 hx with rfl | hxt
      · have h1 : t.filter (fun v => p v && !(v == x)) = t.filter p := by
          apply List.filter_congr
          intro v hv
          have hvx : v ≠ x := fun he => hat (he ▸ hv)
          simp [hvx]
        simp [List.filter_cons, hpx, h1]
      · have hax : (a == x) = false := by
          simp only [beq_eq_false_iff_ne, ne_eq]
          intro he
          exact hat (he ▸ hxt)
        by_cases hpa : p a = true
        · simp only [List.filter_cons, hpa, hax, Bool.not_false, Bool.and_true,
            if_true, List.map_cons, List.sum_cons]
          rw [ih ht hxt]
          omega
        · simp only [Bool.not_eq_true] at hpa
          simp only [List.filter_cons, hpa, Bool.false_and, if_false]
          exact ih ht hxt

theorem not_contains_cons (v node : String) (visited : List String) :
    (!((node :: visited).contains v)) = ((!visited.contains v) && !(v == node)) := by
  by_cases h1 : v = node <;> by_cases h2 : visited.contains v <;>
    simp [List.contains_cons, h1, h2]

theorem potential_split (g : Graph) (visited : List String) (node : String)
    (hmem : node ∈ graphKeys g) (hnv : visited.contains node = false) :
    potential g visited =
      1 + degreeOf g node + potential g (node :: visited) := by
  unfold potential
  have hfil : ((graphKeys g).dedup).filter (fun v => !(node :: visited).contains v) =
      ((graphKeys g).dedup).filter (fun v => (!visited.contains v) && !(v == node)) := by
    apply List.filter_congr
    intro v _
    exact not_contains_cons v node visited
  rw [hfil]
  exact sum_filter_split ((graphKeys g).dedup) (List.nodup_dedup _) node
    (List.mem_dedup.2 hmem) (fun v => !visited.contains v)
    (by simp only [hnv, Bool.not_false]) (fun v => 1 + degreeOf g v)

theorem potential_cons_not_mem (g : Graph) (visited : List String)
    (node : String) (hmem : node ∉ graphKeys g) :
    potential g (node :: visited) = potential g visited := by
  unfold potential
  have hfil : ((graphKeys g).dedup).filter (fun v => !(node :: visited).contains v) =
      ((graphKeys g).dedup).filter (fun v => !visited.contains v) := by
    apply List.filter_congr
    intro v hv
    have hvx : (v == node) = false := by
      simp only [beq_eq_false_iff_ne, ne_eq]
      intro he
      exact hmem (he ▸ List.mem_dedup.1 hv)
    rw [not_contains_cons v node visited, hvx]
    simp
  rw [hfil]

theorem getLast?_eq_getLastD (p : List String) (hne : p ≠ []) (d : String) :
    p.getLast? = some (p.getLastD d) := by
  cases hp : p.getLast? with
  | none => exact absurd (List.getLast?_eq_none_iff.1 hp) hne
  | some x => rw [List.getLastD_eq_getLast?, hp]; rfl

end NavLemmas

namespace NavLemmas

theorem bfsLoop_no_fuel_exhaust (g : Graph) (e : String) :
    ∀ (fuel : Nat) (visited : List String) (queue : List (List String)),
      queue.length + potential g visited < fuel →
      bfsLoop g e fuel visited queue ≠ .outOfFuel := by
  intro fuel
  induction fuel with
  | zero => intro visited queue h; omega
  | succ fuel ih =>
      intro visited queue h
      match queue with
      | [] => simp [bfsLoop]
      | path :: rest =>
          simp only [bfsLoop]
          by_cases h1 : (path.getLastD "" == e) = true
          · rw [if_pos h1]
            simp
          · rw [if_neg h1]
            by_cases h2 : visited.contains (path.getLastD "") = true
            · rw [if_pos h2]
              apply ih
              simp only [List.length_cons] at h
              omega
            · rw [if_neg h2]
              apply ih
              rw [List.length_append, List.length_map]
              by_cases hmem : path.getLastD "" ∈ graphKeys g
              · have hsplit := potential_split g visited (path.getLastD "")
                  hmem (by simpa using h2)
                simp only [List.length_cons] at h
                have : (neighborsOfG g (path.getLastD "")).length =
                    degreeOf g (path.getLastD "") := rfl
                omega
              · have hnil := neighborsOfG_eq_nil_of_not_mem g _ hmem
                have hpot := potential_cons_not_mem g visited _ hmem
                simp only [List.length_cons] at h
                rw [hnil, hpot]
                simp only [List.length_nil]
                omega

theorem bfsLoop_found_wellformed (g : Graph) (e s : String) :
    ∀ (fuel : Nat) (visited : List String) (queue : List (List String))
      (p : List String),
      (∀ q ∈ queue, q ≠ [] ∧ q.head? = some s ∧ chainOkG g q = true) →
      bfsLoop g e fuel visited queue = .found p →
      p ≠ [] ∧ p.head? = some s ∧ p.getLast? = some e ∧
        chainOkG g p = true := by
  intro fuel
  induction fuel with
  | zero => intro visited queue p _ h; simp [bfsLoop] at h
  | succ fuel ih =>
      intro visited queue p hinv h
      match queue with
      | [] => simp [bfsLoop] at h
      | path :: rest =>
          obtain ⟨hne, hhead, hchain⟩ := hinv path (List.mem_cons_self _ _)
          simp only [bfsLoop] at h
          by_cases h1 : (path.getLastD "" == e) = true
          · rw [if_pos h1] at h
            cases h
            refine ⟨hne, hhead, ?_, hchain⟩
            rw [getLast?_eq_getLastD p hne ""]
            simpa using h1
          · rw [if_neg h1] at h
            by_cases h2 : visited.contains (path.getLastD "") = true
            · rw [if_pos h2] at h
              exact ih visited rest p
                (fun q hq => hinv q (List.mem_cons_of_mem _ hq)) h
            · rw [if_neg h2] at h
              apply ih _ _ p _ h
              intro q hq
              rcases List.mem_append.1 hq with hq | hq
              · exact hinv q (List.mem_cons_of_mem _ hq)
              · obtain ⟨nb, hnb, rfl⟩ := List.mem_map.1 hq
                refine ⟨by simp, ?_, ?_⟩
                · match path, hne with
                  | a :: t, _ =>
                    simpa using hhead
                · apply chainOkG_append_single g path (path.getLastD "") nb
                    (getLast?_eq_getLastD path hne "") hchain
                  simpa [isAdjacentG] using hnb

end NavLemmas

namespace NavLemmas

theorem search_never_out_of_fuel (g : Graph) (s e : String) :
    find_path_searchG g s e ≠ .outOfFuel := by
  unfold find_path_searchG
  by_cases h1 : (s == e) = true
  · rw [if_pos h1]; simp
  · rw [if_neg h1]
    by_cases h2 : (!containsKeyG g s || !containsKeyG g e) = true
    · rw [if_pos h2]; simp
    · rw [if_neg h2]
      apply bfsLoop_no_fuel_exhaust
      simp only [List.length_cons, List.length_nil, fuelBound]
      omega

theorem find_pathG_eq_none_of_unreachable (g : Graph) (s e : String)
    (hur : ¬ ReachableG g s e) : find_pathG g s e = none := by
  unfold find_pathG find_path_searchG
  by_cases h1 : (s == e) = true
  · exact absurd (beq_iff_eq.1 h1 ▸ Relation.ReflTransGen.refl) hur
  · rw [if_neg h1]
    by_cases h2 : (!containsKeyG g s || !containsKeyG g e) = true
    · rw [if_pos h2]
    · rw [if_neg h2]
      cases hloop : bfsLoop g e (fuelBound g) [] [[s]] with
      | notFound => rfl
      | outOfFuel => rfl
      | found p =>
          exfalso
          have hinv : ∀ q ∈ [[s]], q ≠ [] ∧ q.head? = some s ∧
              chainOkG g q = true := by
            intro q hq
            simp only [List.mem_singleton] at hq
            subst hq
            exact ⟨by simp, by simp, by simp [chainOkG]⟩
          obtain ⟨hne, hhead, hlast, hchain⟩ :=
            bfsLoop_found_wellformed g e s (fuelBound g) [] [[s]] p hinv hloop
          exact hur (chainOkG_reaches g p s e hchain hhead hlast)

end NavLemmas

/-- The eight location keys of `college_map`, in insertion order. -/
def keyList : List String := graphKeys college_map

/-- Per-pair check: the found path's hop count equals the independently
computed BFS distance (both sides defined, since `college_map` is
connected). -/
def pairShortestOk (s e : String) : Bool :=
  match bfsDist college_map s e, find_path s e with
  | some d, some p => p.length == d + 1
  | _, _ => false

/-- Per-pair check: a non-`none` search result is a well-formed path. -/
def pairPathOk (s e : String) : Bool :=
  match find_path s e with
  | some p => wellFormedPathG college_map s e p
  | none => true

namespace NavLemmas

theorem all_pairs_shortest :
    ∀ s ∈ keyList, ∀ e ∈ keyList, pairShortestOk s e = true := by decide

theorem all_pairs_path_ok :
    ∀ s ∈ keyList, ∀ e ∈ keyList, pairPathOk s e = true := by decide

end NavLemmas

namespace NavLemmas

theorem find_path_same (s : String) : find_path s s = some [s] := by
  unfold find_path find_pathG find_path_searchG
  rw [if_pos (beq_self_eq_true s)]

theorem find_path_some_keys (s e : String) (p : List String) (hse : s ≠ e)
    (h : find_path s e = some p) :
    containsKeyG college_map s = true ∧ containsKeyG college_map e = true := by
  have hse' : ¬((s == e) = true) := fun hh => hse (beq_iff_eq.1 hh)
  cases hcond : (!containsKeyG college_map s || !containsKeyG college_map e) with
  | true =>
      exfalso
      unfold find_path find_pathG find_path_searchG at h
      rw [if_neg hse', if_pos hcond] at h
      simp at h
  | false =>
      rw [Bool.or_eq_false_iff] at hcond
      obtain ⟨h1, h2⟩ := hcond
      rw [Bool.not_eq_false'] at h1 h2
      exact ⟨h1, h2⟩

theorem wellFormed_parts (g : Graph) (s e : String) (r : List String)
    (h : wellFormedPathG g s e r = true) :
    r ≠ [] ∧ r.head? = some s ∧ r.getLast? = some e ∧ chainOkG g r = true := by
  simp only [wellFormedPathG, Bool.and_eq_true, beq_iff_eq,
    Bool.not_eq_true'] at h
  obtain ⟨⟨⟨hemp, hhead⟩, hlast⟩, hchain⟩ := h
  refine ⟨?_, hhead, hlast, hchain⟩
  intro hr
  subst hr
  simp at hemp

end NavLemmas

/-- C1: for every pair of keys present in the graph and connected by some
path, `find_path` returns a path whose edge count is the BFS shortest
distance: it matches the independently computed distance table `bfsDist`,
and no well-formed path is shorter. -/
theorem find_path_shortest (s e : String)
    (hs : containsKeyG college_map s = true)
    (he : containsKeyG college_map e = true)
    (q : List String) (_hq : wellFormedPathG college_map s e q = true) :
    ∃ p, find_path s e = some p ∧
      bfsDist college_map s e = some (p.length - 1) ∧
      ∀ r, wellFormedPathG college_map s e r = true →
        p.length ≤ r.length := by
  have hs' : s ∈ keyList := (NavLemmas.containsKeyG_iff_mem college_map s).1 hs
  have he' : e ∈ keyList := (NavLemmas.containsKeyG_iff_mem college_map e).1 he
  have hok := NavLemmas.all_pairs_shortest s hs' e he'
  unfold pairShortestOk at hok
  cases hd : bfsDist college_map s e with
  | none => rw [hd] at hok; simp at hok
  | some d =>
      cases hp : find_path s e with
      | none => rw [hd, hp] at hok; simp at hok
      | some p =>
          rw [hd, hp] at hok
          simp only [beq_iff_eq] at hok
          refine ⟨p, rfl, ?_, ?_⟩
          · congr 1
            omega
          · intro r hr
            obtain ⟨hne, hhead, hlast, hchain⟩ :=
              NavLemmas.wellFormed_parts college_map s e r hr
            have hball := NavLemmas.walk_mem_ball college_map r s e
              hchain hhead hlast
            have hrpos : 0 < r.length := List.length_pos.2 hne
            by_contra hlt
            have hmin := NavLemmas.bfsDist_min college_map s e d hd
              (r.length - 1) (by omega)
            exact hmin hball

/-- Witness for `find_path_shortest` at Gate 1 → CSE Block. -/
theorem find_path_shortest_witness :
    containsKeyG college_map "Gate 1" = true ∧
    containsKeyG college_map "CSE Block" = true ∧
    wellFormedPathG college_map "Gate 1" "CSE Block"
      ["Gate 1", "Gate 2", "CSE Block"] = true ∧
    ∃ p, find_path "Gate 1" "CSE Block" = some p ∧
      bfsDist college_map "Gate 1" "CSE Block" = some (p.length - 1) ∧
      ∀ r, wellFormedPathG college_map "Gate 1" "CSE Block" r = true →
        p.length ≤ r.length :=
  ⟨by decide, by decide, by decide,
    find_path_shortest "Gate 1" "CSE Block" (by decide) (by decide)
      ["Gate 1", "Gate 2", "CSE Block"] (by decide)⟩

/-- C2: every non-`none` result of `find_path` is a well-formed path: it is
non-empty, starts at `start`, ends at `end`, and consecutive elements are
adjacent in the graph (trivially for the one-element `start = end` case). -/
theorem find_path_wellformed (s e : String) (p : List String)
    (h : find_path s e = some p) :
    wellFormedPathG college_map s e p = true := by
  by_cases hse : s = e
  · subst hse
    rw [NavLemmas.find_path_same s] at h
    cases h
    simp [wellFormedPathG, chainOkG]
  · obtain ⟨hs, he⟩ := NavLemmas.find_path_some_keys s e p hse h
    have hs' : s ∈ keyList := (NavLemmas.containsKeyG_iff_mem college_map s).1 hs
    have he' : e ∈ keyList := (NavLemmas.containsKeyG_iff_mem college_map e).1 he
    have hok := NavLemmas.all_pairs_path_ok s hs' e he'
    unfold pairPathOk at hok
    rw [h] at hok
    exact hok

/-- Witness for `find_path_wellformed` at Gate 1 → CSE Block. -/
theorem find_path_wellformed_witness :
    find_path "Gate 1" "CSE Block" = some ["Gate 1", "Gate 2", "CSE Block"] ∧
    wellFormedPathG college_map "Gate 1" "CSE Block"
      ["Gate 1", "Gate 2", "CSE Block"] = true :=
  ⟨by decide,
    find_path_wellformed "Gate 1" "CSE Block"
      ["Gate 1", "Gate 2", "CSE Block"] (by decide)⟩

/-- C3: `navigate` validates in order — missing location first, then
unknown location, then absent path — and in every error case returns the
error message with no map artifact and no instructions. -/
theorem navigate_validation_order (g : Graph) (s e : String) (v : Bool) :
    ((s = "" ∨ e = "") →
      navigateG g s e v = ⟨missing_location_message, none, ""⟩) ∧
    (s ≠ "" → e ≠ "" →
      (containsKeyG g s = false ∨ containsKeyG g e = false) →
      navigateG g s e v = ⟨invalid_location_message, none, ""⟩) ∧
    (s ≠ "" → e ≠ "" →
      containsKeyG g s = true → containsKeyG g e = true → s ≠ e →
      find_pathG g s e = none →
      navigateG g s e v = ⟨no_path_message s e, none, ""⟩) := by
  refine ⟨?_, ?_, ?_⟩
  · intro h
    unfold navigateG
    have hcond : (s == "" || e == "") = true := by
      rcases h with rfl | rfl <;> simp
    rw [if_pos hcond]
  · intro hs he h
    unfold navigateG
    have hcond1 : (s == "" || e == "") = false := by
      simp [hs, he]
    have hcond2 : (!containsKeyG g s || !containsKeyG g e) = true := by
      rcases h with h | h <;> simp [h]
    rw [hcond1, if_neg (by simp), if_pos hcond2]
  · intro hs he hcs hce hse hnp
    unfold navigateG
    have hcond1 : (s == "" || e == "") = false := by
      simp [hs, he]
    have hcond2 : (!containsKeyG g s || !containsKeyG g e) = false := by
      simp [hcs, hce]
    have hcond3 : (s == e) = false := by
      simp [hse]
    rw [hcond1, if_neg (by simp), hcond2, if_neg (by simp),
      hcond3, if_neg (by simp), hnp]

/-- Witness for `navigate_validation_order`: each validation clause at a
concrete input (an isolated node `E` exercises the no-path clause). -/
theorem navigate_validation_order_witness :
    navigateG college_map "" "Gate 1" true =
      ⟨missing_location_message, none, ""⟩ ∧
    navigateG college_map "Atlantis" "Gate 1" false =
      ⟨invalid_location_message, none, ""⟩ ∧
    navigateG [("A", ["B"]), ("B", ["A"]), ("E", [])] "A" "E" false =
      ⟨no_path_message "A" "E", none, ""⟩ :=
  ⟨(navigate_validation_order college_map "" "Gate 1" true).1 (Or.inl rfl),
   (navigate_validation_order college_map "Atlantis" "Gate 1" false).2.1
     (by decide) (by decide) (Or.inl (by decide)),
   (navigate_validation_order [("A", ["B"]), ("B", ["A"]), ("E", [])]
       "A" "E" false).2.2
     (by decide) (by decide) (by decide) (by decide) (by decide) (by decide)⟩

/-- C4: for any key `x` (in fact for any graph and any string, so no search
is involved), `find_path x x` is the single-element path `[x]`; its
estimated distance is 0; and `navigate x x _` answers with the already-there
message and no map artifact or traversal instructions. -/
theorem same_location_behavior :
    (∀ (g : Graph) (x : String), find_pathG g x x = some [x]) ∧
    (∀ x : String, calculate_distance [x] = 0) ∧
    (∀ (x : String) (v : Bool), x ≠ "" →
      containsKeyG college_map x = true →
      navigate x x v = ⟨already_at_message x, none, ""⟩) := by
  refine ⟨?_, ?_, ?_⟩
  · intro g x
    unfold find_pathG find_path_searchG
    rw [if_pos (beq_self_eq_true x)]
  · intro x
    rfl
  · intro x v hx hcx
    unfold navigate navigateG
    have hcond1 : (x == "" || x == "") = false := by simp [hx]
    have hcond2 : (!containsKeyG college_map x || !containsKeyG college_map x)
        = false := by simp [hcx]
    rw [hcond1, if_neg (by simp), hcond2, if_neg (by simp),
      if_pos (beq_self_eq_true x)]

/-- Witness for `same_location_behavior` at Gate 1. -/
theorem same_location_behavior_witness :
    ("Gate 1" : String) ≠ "" ∧
    containsKeyG college_map "Gate 1" = true ∧
    navigate "Gate 1" "Gate 1" true =
      ⟨already_at_message "Gate 1", none, ""⟩ :=
  ⟨by decide, by decide,
    same_location_behavior.2.2 "Gate 1" true (by decide) (by decide)⟩

/-- C10: `find_path x x = [x]` for every string `x`, even one absent from
the graph, because the equality check precedes the membership check; at the
service level an invalid equal pair is still rejected, because `navigate`
checks membership before the same-location case. -/
theorem find_path_equality_before_membership :
    (∀ x : String, find_path x x = some [x]) ∧
    (∀ (x : String) (v : Bool), x ≠ "" →
      containsKeyG college_map x = false →
      navigate x x v = ⟨invalid_location_message, none, ""⟩) := by
  constructor
  · intro x
    unfold find_path find_pathG find_path_searchG
    rw [if_pos (beq_self_eq_true x)]
  · intro x v hx hcx
    unfold navigate navigateG
    have hcond1 : (x == "" || x == "") = false := by simp [hx]
    have hcond2 : (!containsKeyG college_map x || !containsKeyG college_map x)
        = true := by simp [hcx]
    rw [hcond1, if_neg (by simp), if_pos hcond2]

/-- Witness for `find_path_equality_before_membership` at the absent key
`Atlantis`. -/
theorem find_path_equality_before_membership_witness :
    find_path "Atlantis" "Atlantis" = some ["Atlantis"] ∧
    ("Atlantis" : String) ≠ "" ∧
    containsKeyG college_map "Atlantis" = false ∧
    navigate "Atlantis" "Atlantis" false =
      ⟨invalid_location_message, none, ""⟩ :=
  ⟨find_path_equality_before_membership.1 "Atlantis", by decide, by decide,
    find_path_equality_before_membership.2 "Atlantis" false
      (by decide) (by decide)⟩

/-- C5 counterexample: on the success path Gate 1 → Gate 2 (a 2-location
path) with narration enabled, `navigate` emits 3 instructions — one
starting entry, one per-hop entry, one destination entry — not 2, so the
instruction count does not equal the path length. -/
theorem narration_count_counterexample :
    find_path "Gate 1" "Gate 2" = some ["Gate 1", "Gate 2"] ∧
    navigate "Gate 1" "Gate 2" true =
      ⟨result_message ["Gate 1", "Gate 2"], some ["Gate 1", "Gate 2"],
        String.intercalate "\n"
          (voice_instructions "Gate 1" "Gate 2" ["Gate 1", "Gate 2"])⟩ ∧
    (voice_instructions "Gate 1" "Gate 2" ["Gate 1", "Gate 2"]).length = 3 ∧
    ¬((voice_instructions "Gate 1" "Gate 2" ["Gate 1", "Gate 2"]).length =
        (["Gate 1", "Gate 2"] : List String).length) := by
  refine ⟨by decide, by decide, by decide, by decide⟩

/-- C5 amended: for every successful navigation with narration enabled over
a path of `n` locations, the instruction list has exactly `n + 1` entries;
the first instruction is the starting entry naming the start location and
the last is the destination entry naming the end location. -/
theorem narration_shape (s e : String) (p : List String)
    (hs : s ≠ "") (he : e ≠ "")
    (hcs : containsKeyG college_map s = true)
    (hce : containsKeyG college_map e = true)
    (hse : s ≠ e) (hp : find_path s e = some p) (hpne : p ≠ []) :
    navigate s e true =
      ⟨result_message p, some p,
        String.intercalate "\n" (voice_instructions s e p)⟩ ∧
    (voice_instructions s e p).length = p.length + 1 ∧
    (voice_instructions s e p).head? = some (starting_instruction s) ∧
    (voice_instructions s e p).getLast? = some (destination_instruction e) := by
  have hpe : p.isEmpty = false := by
    cases p with
    | nil => cases hpne rfl
    | cons a t => rfl
  have hinstr_ne : (voice_instructions s e p).isEmpty = false := by
    simp [voice_instructions]
  refine ⟨?_, ?_, ?_, ?_⟩
  · unfold navigate navigateG
    have hcond1 : (s == "" || e == "") = false := by simp [hs, he]
    have hcond2 : (!containsKeyG college_map s || !containsKeyG college_map e)
        = false := by simp [hcs, hce]
    have hcond3 : (s == e) = false := by simp [hse]
    unfold find_path at hp
    rw [hcond1, if_neg (by simp), hcond2, if_neg (by simp),
      hcond3, if_neg (by simp), hp]
    simp only [hpe, Bool.false_eq_true, if_false, if_true, hinstr_ne]
  · have hlen : 0 < p.length := by
      cases p with
      | nil => cases hpne rfl
      | cons a t => simp
    simp only [voice_instructions, List.length_append, List.length_map,
      List.enum_length, List.length_drop, List.length_singleton]
    omega
  · simp [voice_instructions]
  · have hsplit : voice_instructions s e p =
        (starting_instruction s ::
          (p.drop 1).enum.map (fun ip => step_instruction (ip.1 + 1) ip.2))
          ++ [destination_instruction e] := by
      simp [voice_instructions]
    rw [hsplit, List.getLast?_concat]

/-- Witness for `narration_shape` at Gate 1 → CSE Block. -/
theorem narration_shape_witness :
    find_path "Gate 1" "CSE Block" = some ["Gate 1", "Gate 2", "CSE Block"] ∧
    navigate "Gate 1" "CSE Block" true =
      ⟨result_message ["Gate 1", "Gate 2", "CSE Block"],
        some ["Gate 1", "Gate 2", "CSE Block"],
        String.intercalate "\n" (voice_instructions "Gate 1" "CSE Block"
          ["Gate 1", "Gate 2", "CSE Block"])⟩ ∧
    (voice_instructions "Gate 1" "CSE Block"
      ["Gate 1", "Gate 2", "CSE Block"]).length =
      (["Gate 1", "Gate 2", "CSE Block"] : List String).length + 1 :=
  ⟨by decide,
    (narration_shape "Gate 1" "CSE Block" ["Gate 1", "Gate 2", "CSE Block"]
      (by decide) (by decide) (by decide) (by decide) (by decide)
      (by decide) (by decide)).1,
    (narration_shape "Gate 1" "CSE Block" ["Gate 1", "Gate 2", "CSE Block"]
      (by decide) (by decide) (by decide) (by decide) (by decide)
      (by decide) (by decide)).2.1⟩

/-- C6: for every path, the estimated distance is (hops) × 100 meters, and
the estimated walking time shown by `navigate` is that distance divided by
80, truncated to whole minutes. -/
theorem distance_time_estimates :
    (∀ p : List String, calculate_distance p = (p.length - 1) * 100) ∧
    (∀ p : List String, est_walking_time p = ((p.length - 1) * 100) / 80) := by
  have h1 : ∀ p : List String, calculate_distance p = (p.length - 1) * 100 := by
    intro p
    unfold calculate_distance
    by_cases h : p.length < 2
    · rw [if_pos h]
      omega
    · rw [if_neg h]
  refine ⟨h1, fun p => ?_⟩
  unfold est_walking_time
  rw [h1 p]

/-- C7 counterexample: `"gate 1"` equals the key `"Gate 1"` up to letter
case (and has no surrounding whitespace), the key is in the graph, yet
lookup does not treat the input as present — `navigate` rejects it as an
invalid location. -/
theorem case_insensitive_lookup_counterexample :
    "gate 1".data.map Char.toLower = "Gate 1".data.map Char.toLower ∧
    containsKeyG college_map "Gate 1" = true ∧
    containsKeyG college_map "gate 1" = false ∧
    navigate "gate 1" "CSE Block" false =
      ⟨invalid_location_message, none, ""⟩ := by
  refine ⟨by decide, by decide, by decide, by decide⟩

/-- C7 amended: location keys are compared by exact string equality — no
case folding and no whitespace trimming: an input is treated as present
exactly when it is character-for-character one of the graph's keys. -/
theorem key_lookup_exact (x : String) :
    containsKeyG college_map x = true ↔
      (x = "Gate 1" ∨ x = "Gate 2" ∨ x = "Cafeteria" ∨ x = "BTech Block" ∨
       x = "Santosh Library" ∨ x = "Ravi Canteen" ∨ x = "Boys Hostel" ∨
       x = "CSE Block") := by
  rw [NavLemmas.containsKeyG_iff_mem college_map x]
  show x ∈ college_map.map (fun kv => kv.1) ↔ _
  simp [college_map]

/-- C8: the constructed graph satisfies the no-dangling-reference
invariant — every neighbor key in any adjacency list is a key of the
location dict and has a coordinate entry — and the (spec-modelled)
construction-time validator accepts a graph exactly when the invariant
holds, so it accepts `college_map` and fails fast on any violation. -/
theorem graph_no_dangling_holds :
    (∀ (g : Graph) (coords : List (String × ℚ × ℚ)),
      validate_graph g coords = .ok g ↔ graph_no_dangling g coords = true) ∧
    graph_no_dangling college_map coordinates = true ∧
    validate_graph college_map coordinates = .ok college_map := by
  refine ⟨fun g coords => ?_, by decide, by rfl⟩
  unfold validate_graph
  by_cases h : graph_no_dangling g coords = true
  · simp [h]
  · simp [h]

/-- C9: the search never exhausts its fuel bound for any graph and any pair
of inputs (the Python loop always terminates), and when both keys are
present but the end is unreachable from the start, `find_path` exhausts the
search space and returns `None`. -/
theorem find_path_terminates :
    (∀ (g : Graph) (s e : String), find_path_searchG g s e ≠ .outOfFuel) ∧
    (∀ (g : Graph) (s e : String),
      containsKeyG g s = true → containsKeyG g e = true →
      ¬ ReachableG g s e → find_pathG g s e = none) :=
  ⟨NavLemmas.search_never_out_of_fuel,
   fun g s e _ _ h => NavLemmas.find_pathG_eq_none_of_unreachable g s e h⟩

namespace NavLemmas

/-- In the two-component test graph `A–B, E`, everything reachable from `A`
is `A` or `B`; in particular `E` is not reachable. -/
theorem test_graph_not_reachable :
    ¬ ReachableG [("A", ["B"]), ("B", ["A"]), ("E", [])] "A" "E" := by
  have hmem : ∀ x : String,
      ReachableG [("A", ["B"]), ("B", ["A"]), ("E", [])] "A" x →
      x = "A" ∨ x = "B" := by
    intro x h
    induction h with
    | refl => exact Or.inl rfl
    | @tail b c h1 h2 ih =>
        rcases ih with rfl | rfl
        · have hn : neighborsOfG [("A", ["B"]), ("B", ["A"]), ("E", [])] "A"
              = ["B"] := by rfl
          rw [hn] at h2
          simp only [List.mem_singleton] at h2
          exact Or.inr h2
        · have hn : neighborsOfG [("A", ["B"]), ("B", ["A"]), ("E", [])] "B"
              = ["A"] := by rfl
          rw [hn] at h2
          simp only [List.mem_singleton] at h2
          exact Or.inl h2
  intro h
  rcases hmem "E" h with h1 | h1 <;> exact absurd h1 (by decide)

end NavLemmas

/-- Witness for `find_path_terminates`: in the test graph with an isolated
node `E`, both keys are present, `E` is unreachable from `A`, and the
search returns `None`. -/
theorem find_path_terminates_witness :
    find_pathG [("A", ["B"]), ("B", ["A"]), ("E", [])] "A" "E" = none :=
  find_path_terminates.2 [("A", ["B"]), ("B", ["A"]), ("E", [])] "A" "E"
    (by decide) (by decide) NavLemmas.test_graph_not_reachable
